import Mathlib

/-!
Verification of the star-chart library `solar_system_plot.py`.

The file embeds, as Lean functions over exact rationals, the parts of
`plot_solar_sys_objects` that the specification's claims are about:

* the periodic line segmenter for constellation edges (source lines 94-111),
* the brightness filter and marker sizing (source lines 57-67),
* the motion-vector / direction-arrow computation (source lines 172-190),
* the coordinate-frame selection via the `ecliptic_coords` flag
  (source lines 11-12 and 99).

The source compares Euclidean distances `np.sqrt(np.sum((a-b)**2.0))`.
Since `Real.sqrt` is strictly monotone on nonnegative reals, comparing two
such distances is equivalent to comparing the squared distances, which stay
inside `ℚ`; the embedding therefore computes with the squared distance
`dist2` and the bridge to the source's square-rooted `dist` is established
by the lemmas `sqrt_dist2_lt_iff` and `sqrt_dist2_le_iff` below.
-/

/-- A projected point `(longitude, latitude)` with exact rational
coordinates, as stored in the rows of `lines_xy`. -/
abbrev Pt : Type := ℚ × ℚ

/-- Squared Euclidean distance: the square of the source's
`dist(a, b) = np.sqrt(np.sum((a - b)**2.0))` (source lines 96-97). -/
def dist2 (a b : Pt) : ℚ :=
  (a.1 - b.1) ^ 2 + (a.2 - b.2) ^ 2

/-- Longitude shift: the source's `p + (x_max, 0)` (with `d = x_max`) and
`p - (x_max, 0)` (with `d = -x_max`); only the first component moves. -/
def shiftLon (p : Pt) (d : ℚ) : Pt :=
  (p.1 + d, p.2)

/-- The periodic line segmenter, source lines 103-111, for one `line` of
`lines_xy` with period `P` (`x_max` in the source: 360 in ecliptic mode, 24
in equatorial mode).  Distance comparisons are carried out on squared
distances, which by strict monotonicity of the square root agree with the
source's comparisons of `dist` values:

    if dist(line[0], line[1]) > dist(line[0] + (x_max, 0), line[1]):
      lines_xy_mod.append([line[0] + (x_max, 0), line[1]])
      lines_xy_mod.append([line[0], line[1] - (x_max, 0)])
    elif dist(line[0], line[1]) > dist(line[0], line[1] + (x_max, 0)):
      lines_xy_mod.append([line[0] - (x_max, 0), line[1]])
      lines_xy_mod.append([line[0], line[1] + (x_max, 0)])
    else:
      lines_xy_mod.append([line[0], line[1]])
-/
def segmentLine (P : ℚ) (line : Pt × Pt) : List (Pt × Pt) :=
  if dist2 line.1 line.2 > dist2 (shiftLon line.1 P) line.2 then
    [(shiftLon line.1 P, line.2), (line.1, shiftLon line.2 (-P))]
  else if dist2 line.1 line.2 > dist2 line.1 (shiftLon line.2 P) then
    [(shiftLon line.1 (-P), line.2), (line.1, shiftLon line.2 P)]
  else
    [(line.1, line.2)]

/-- Translation of a whole segment along the longitude axis by `d`:
both endpoints move by `(d, 0)`, latitudes are untouched. -/
def translateSeg (s : Pt × Pt) (d : ℚ) : Pt × Pt :=
  (shiftLon s.1 d, shiftLon s.2 d)

/-- A catalog star: Hipparcos identifier and magnitude (one row of the
`stars` dataframe, the columns the brightness filter reads). -/
structure StarRec where
  id : Nat
  magnitude : ℚ
deriving DecidableEq, Repr

/-- First endpoints of the constellation edges (`edges_star1`,
source line 54). -/
def edges_star1 (edges : List (Nat × Nat)) : List Nat :=
  edges.map Prod.fst

/-- Second endpoints of the constellation edges (`edges_star2`,
source line 55). -/
def edges_star2 (edges : List (Nat × Nat)) : List Nat :=
  edges.map Prod.snd

/-- The inclusion mask `bright_stars` of source lines 59-63, evaluated at
one star: start from `stars.magnitude <= limiting_magnitude`, then force
the entry to `True` when the star's identifier occurs in `edges_star1` or
in `edges_star2`. -/
def bright_stars (L : ℚ) (edges : List (Nat × Nat)) (s : StarRec) : Bool :=
  decide (s.magnitude ≤ L)
    || (edges_star1 edges).contains s.id
    || (edges_star2 edges).contains s.id

/-- Marker sizing of source line 67:
`marker_size = (1.5 + limiting_magnitude - magnitude) ** 2.0`. -/
def marker_size (L m : ℚ) : ℚ :=
  (3 / 2 + L - m) ^ 2

/-- The direction-arrow endpoints of source lines 172-186 for one body
whose projected position over time is `pos`: the marker is drawn at
`(x, y) = pos t`, the deltas are taken between times `t + 7` and `t`
componentwise, and the arrow tip is `(x1, y1) = (x + lon_delta,
y + lat_delta)`.  Returns `((x, y), (x1, y1))`. -/
def motion_arrow (pos : ℚ → Pt) (t : ℚ) : Pt × Pt :=
  let x : ℚ := (pos t).1
  let y : ℚ := (pos t).2
  let lat_delta : ℚ := (pos (t + 7)).2 - y
  let lon_delta : ℚ := (pos (t + 7)).1 - x
  ((x, y), (x + lon_delta, y + lat_delta))

/-- The motion vector `(Δlon, Δlat)` of one body: the componentwise
displacement `motion_arrow` applies to reach the arrow tip. -/
def motion_vector (pos : ℚ → Pt) (t : ℚ) : Pt :=
  ((motion_arrow pos t).2.1 - (motion_arrow pos t).1.1,
   (motion_arrow pos t).2.2 - (motion_arrow pos t).1.2)

/-- A value a Python caller can pass for the `ecliptic_coords` parameter:
the parameter is untyped at runtime, so booleans, strings and `None` can
all arrive. -/
inductive PyVal where
  | pybool : Bool → PyVal
  | pystr : String → PyVal
  | pynone : PyVal
deriving DecidableEq, Repr

/-- Python truthiness, which is all the source ever applies to
`ecliptic_coords` (`if ecliptic_coords:`): `True`/`False` for booleans, a
string is truthy iff nonempty, `None` is falsy. -/
def py_truthy : PyVal → Bool
  | PyVal.pybool b => b
  | PyVal.pystr s => !s.isEmpty
  | PyVal.pynone => false

/-- Frame selection of source lines 11-12 and 99: `ecliptic_coords` is
consumed only through truth tests, and the source contains no validation
of it and raises no exception for it, so the build always proceeds and the
period is `x_max = 360 if ecliptic_coords else 24`.  The `Except` wrapper
records that there is no failure path on the selector: the result is
always `Except.ok`. -/
def chart_frame_period (sel : PyVal) : Except String ℚ :=
  Except.ok (if py_truthy sel then 360 else 24)

/-! ### Bridge between squared-distance and square-rooted comparisons -/

theorem dist2_nonneg (a b : Pt) : 0 ≤ dist2 a b := by
  unfold dist2; positivity

theorem sqrt_dist2_lt_iff (a b c d : Pt) :
    Real.sqrt (dist2 a b) < Real.sqrt (dist2 c d) ↔ dist2 a b < dist2 c d := by
  rw [Real.sqrt_lt_sqrt_iff (by exact_mod_cast dist2_nonneg a b)]
  exact_mod_cast Iff.rfl

theorem sqrt_dist2_le_iff (a b c d : Pt) :
    Real.sqrt (dist2 a b) ≤ Real.sqrt (dist2 c d) ↔ dist2 a b ≤ dist2 c d := by
  rw [Real.sqrt_le_sqrt_iff (by exact_mod_cast dist2_nonneg c d)]
  exact_mod_cast Iff.rfl

/-! ### Shape of the three segmenter branches -/

/-- A strictly shorter right-shifted distance forces the right-shifted
distance below the left-shifted one as well (the two shifts cannot both
beat the plain distance). -/
theorem segR_lt_segL (P : ℚ) (p0 p1 : Pt) (hP : 0 < P)
    (h : dist2 (shiftLon p0 P) p1 < dist2 p0 p1) :
    dist2 (shiftLon p0 P) p1 < dist2 p0 (shiftLon p1 P) := by
  simp only [dist2, shiftLon] at h ⊢
  nlinarith [h, hP]

/-- Mirror image of `segR_lt_segL` for the left-shifted distance. -/
theorem segL_lt_segR (P : ℚ) (p0 p1 : Pt) (hP : 0 < P)
    (h : dist2 p0 (shiftLon p1 P) < dist2 p0 p1) :
    dist2 p0 (shiftLon p1 P) < dist2 (shiftLon p0 P) p1 := by
  simp only [dist2, shiftLon] at h ⊢
  nlinarith [h, hP]

/-- The two shifted distances cannot both be strictly below the plain
distance. -/
theorem seg_not_both (P : ℚ) (p0 p1 : Pt) (hP : 0 < P) :
    ¬(dist2 (shiftLon p0 P) p1 < dist2 p0 p1 ∧
      dist2 p0 (shiftLon p1 P) < dist2 p0 p1) := by
  rintro ⟨h1, h2⟩
  simp only [dist2, shiftLon] at h1 h2
  nlinarith [h1, h2, hP]

/-! ### The claims -/

/-- Claim C1: for endpoints with longitudes in `[0, P)` and arbitrary
latitudes, the wrap branch chosen by the segmenter matches the argmin of
the three Euclidean distances: the right-shift branch is taken iff
`d_shift_right` is strictly smallest, the left-shift branch iff
`d_shift_left` is strictly smallest, and otherwise the segment is left
unwrapped. -/
theorem wrap_branch_matches_argmin (P : ℚ) (p0 p1 : Pt) (hP : 0 < P)
    (h0a : 0 ≤ p0.1) (h0b : p0.1 < P) (h1a : 0 ≤ p1.1) (h1b : p1.1 < P) :
    (segmentLine P (p0, p1) = [(shiftLon p0 P, p1), (p0, shiftLon p1 (-P))] ↔
      Real.sqrt (dist2 (shiftLon p0 P) p1) < Real.sqrt (dist2 p0 p1) ∧
      Real.sqrt (dist2 (shiftLon p0 P) p1) < Real.sqrt (dist2 p0 (shiftLon p1 P))) ∧
    (segmentLine P (p0, p1) = [(shiftLon p0 (-P), p1), (p0, shiftLon p1 P)] ↔
      Real.sqrt (dist2 p0 (shiftLon p1 P)) < Real.sqrt (dist2 p0 p1) ∧
      Real.sqrt (dist2 p0 (shiftLon p1 P)) < Real.sqrt (dist2 (shiftLon p0 P) p1)) ∧
    (segmentLine P (p0, p1) = [(p0, p1)] ↔
      Real.sqrt (dist2 p0 p1) ≤ Real.sqrt (dist2 (shiftLon p0 P) p1) ∧
      Real.sqrt (dist2 p0 p1) ≤ Real.sqrt (dist2 p0 (shiftLon p1 P))) := by
  simp only [sqrt_dist2_lt_iff, sqrt_dist2_le_iff]
  have hPne : P ≠ -P := by intro h; linarith
  by_cases hA : dist2 p0 p1 > dist2 (shiftLon p0 P) p1
  · have hout : segmentLine P (p0, p1) =
        [(shiftLon p0 P, p1), (p0, shiftLon p1 (-P))] := by
      simp only [segmentLine]; rw [if_pos hA]
    rw [hout]
    refine ⟨iff_of_true rfl ⟨hA, segR_lt_segL P p0 p1 hP hA⟩, ?_, ?_⟩
    · refine iff_of_false ?_ ?_
      · intro heq
        have : shiftLon p0 P = shiftLon p0 (-P) := by
          simpa using congrArg (fun l => l.headI.1) heq
        simp only [shiftLon, Prod.mk.injEq] at this
        exact hPne (by linarith [this.1])
      · rintro ⟨hL, _⟩
        exact seg_not_both P p0 p1 hP ⟨hA, hL⟩
    · refine iff_of_false (by simp) (fun h => absurd hA (not_lt.2 h.1))
  · by_cases hB : dist2 p0 p1 > dist2 p0 (shiftLon p1 P)
    · have hout : segmentLine P (p0, p1) =
          [(shiftLon p0 (-P), p1), (p0, shiftLon p1 P)] := by
        simp only [segmentLine]; rw [if_neg hA, if_pos hB]
      rw [hout]
      refine ⟨?_, iff_of_true rfl ⟨hB, segL_lt_segR P p0 p1 hP hB⟩, ?_⟩
      · refine iff_of_false ?_ (fun h => hA h.1)
        intro heq
        have : shiftLon p0 (-P) = shiftLon p0 P := by
          simpa using congrArg (fun l => l.headI.1) heq
        simp only [shiftLon, Prod.mk.injEq] at this
        exact hPne (by linarith [this.1])
      · refine iff_of_false (by simp) (fun h => absurd hB (not_lt.2 h.2))
    · have hout : segmentLine P (p0, p1) = [(p0, p1)] := by
        simp only [segmentLine]; rw [if_neg hA, if_neg hB]
      rw [hout]
      refine ⟨iff_of_false (by simp) (fun h => hA h.1),
              iff_of_false (by simp) (fun h => hB h.1),
              iff_of_true rfl ⟨not_lt.1 hA, not_lt.1 hB⟩⟩

/-- Witness for C1 at `P = 360`, `p0 = (359, 10)`, `p1 = (2, -5)`: the
left-shift characterisation, every hypothesis discharged concretely. -/
theorem wrap_branch_matches_argmin_witness :
    (0 : ℚ) < 360 ∧ (0 : ℚ) ≤ 359 ∧ (359 : ℚ) < 360 ∧ (0 : ℚ) ≤ 2 ∧ (2 : ℚ) < 360 ∧
    (segmentLine 360 (((359 : ℚ), (10 : ℚ)), ((2 : ℚ), (-5 : ℚ))) =
        [(shiftLon (359, 10) (-360), (2, -5)), ((359, 10), shiftLon (2, -5) 360)] ↔
      Real.sqrt (dist2 ((359 : ℚ), (10 : ℚ)) (shiftLon (2, -5) 360)) <
          Real.sqrt (dist2 ((359 : ℚ), (10 : ℚ)) ((2 : ℚ), (-5 : ℚ))) ∧
      Real.sqrt (dist2 ((359 : ℚ), (10 : ℚ)) (shiftLon (2, -5) 360)) <
          Real.sqrt (dist2 (shiftLon (359, 10) 360) ((2 : ℚ), (-5 : ℚ)))) :=
  ⟨by norm_num, by norm_num, by norm_num, by norm_num, by norm_num,
    (wrap_branch_matches_argmin 360 (359, 10) (2, -5) (by norm_num) (by norm_num)
      (by norm_num) (by norm_num) (by norm_num)).2.1⟩

/-- Claim C2: whenever the plain distance is at most both shifted
distances — ties included, which fall through the strict inequalities —
the segmenter emits exactly the single original segment unchanged. -/
theorem no_wrap_idempotent (P : ℚ) (p0 p1 : Pt)
    (h1 : Real.sqrt (dist2 p0 p1) ≤ Real.sqrt (dist2 (shiftLon p0 P) p1))
    (h2 : Real.sqrt (dist2 p0 p1) ≤ Real.sqrt (dist2 p0 (shiftLon p1 P))) :
    segmentLine P (p0, p1) = [(p0, p1)] := by
  rw [sqrt_dist2_le_iff] at h1 h2
  simp only [segmentLine]
  rw [if_neg (not_lt.2 h1), if_neg (not_lt.2 h2)]

/-- Witness for C2 at the spec's no-wrap scenario `p0 = (10, 0)`,
`p1 = (20, 5)`, `P = 360`. -/
theorem no_wrap_idempotent_witness :
    segmentLine 360 (((10 : ℚ), (0 : ℚ)), ((20 : ℚ), (5 : ℚ))) = [((10, 0), (20, 5))] :=
  no_wrap_idempotent 360 (10, 0) (20, 5)
    (Real.sqrt_le_sqrt (by norm_num [dist2, shiftLon]))
    (Real.sqrt_le_sqrt (by norm_num [dist2, shiftLon]))

/-- Claim C3 counterexample: with limiting magnitude `L = 3` and two stars
of magnitudes `5 < 6`, both force-included as endpoints of the edge
`(1, 2)`, the marker sizes are `1/4 < 9/4`: the size is not strictly
decreasing in magnitude over all included stars, because
`(1.5 + L - m)^2` turns around at `m = L + 1.5`. -/
theorem marker_size_not_monotone :
    bright_stars 3 [(1, 2)] ⟨1, 5⟩ = true ∧ bright_stars 3 [(1, 2)] ⟨2, 6⟩ = true ∧
    (5 : ℚ) < 6 ∧ ¬ marker_size 3 5 > marker_size 3 6 :=
  ⟨by decide, by decide, by norm_num, by norm_num [marker_size]⟩

/-- Claim C3 as amended: marker size is strictly decreasing in magnitude
over included stars whose magnitudes do not exceed `L + 1.5`; in
particular over all stars included by the brightness threshold itself. -/
theorem marker_size_monotone_below_cap (L m1 m2 : ℚ) (h12 : m1 < m2)
    (h2 : m2 ≤ L + 3 / 2) :
    marker_size L m1 > marker_size L m2 := by
  simp only [marker_size, gt_iff_lt]
  nlinarith

/-- Witness for the amended C3 at `L = 3`, `m1 = 1`, `m2 = 2`. -/
theorem marker_size_monotone_below_cap_witness :
    (1 : ℚ) < 2 ∧ (2 : ℚ) ≤ 3 + 3 / 2 ∧ marker_size 3 1 > marker_size 3 2 :=
  ⟨by norm_num, by norm_num, marker_size_monotone_below_cap 3 1 2 (by norm_num) (by norm_num)⟩

/-- Claim C4: a star's inclusion mask is `true` iff its magnitude is at
most the limiting magnitude or its identifier appears as an endpoint
(either position) of at least one constellation edge. -/
theorem bright_stars_inclusion_iff (L : ℚ) (edges : List (Nat × Nat)) (s : StarRec) :
    bright_stars L edges s = true ↔
      s.magnitude ≤ L ∨ ∃ e ∈ edges, e.1 = s.id ∨ e.2 = s.id := by
  simp only [bright_stars, edges_star1, edges_star2, Bool.or_eq_true,
    decide_eq_true_eq, List.elem_iff, List.mem_map]
  constructor
  · rintro ((h | ⟨e, he, hh⟩) | ⟨e, he, hh⟩)
    · exact Or.inl h
    · exact Or.inr ⟨e, he, Or.inl hh⟩
    · exact Or.inr ⟨e, he, Or.inr hh⟩
  · rintro (h | ⟨e, he, h | h⟩)
    · exact Or.inl (Or.inl h)
    · exact Or.inl (Or.inr ⟨e, he, h⟩)
    · exact Or.inr ⟨e, he, h⟩

/-- Claim C5: for the single input segment `p0 = (359, 10)`,
`p1 = (2, -5)` with period `P = 360`, the segmenter takes the left-shift
branch and emits exactly `[(-1, 10), (2, -5)]` and
`[(359, 10), (362, -5)]`, in that order. -/
theorem concrete_wrap_scenario :
    segmentLine 360 ((359, 10), (2, -5)) =
      [((-1, 10), (2, -5)), ((359, 10), (362, -5))] := by
  norm_num [segmentLine, dist2, shiftLon]

/-- Claim C6: every output segment of the segmenter keeps each endpoint's
latitude equal to the corresponding original endpoint's latitude, and each
endpoint's longitude is the original one shifted by exactly `0`, `+P` or
`-P`. -/
theorem seg_latitudes_preserved (P : ℚ) (l : Pt × Pt) (s : Pt × Pt)
    (hs : s ∈ segmentLine P l) :
    s.1.2 = l.1.2 ∧ s.2.2 = l.2.2 ∧
    (s.1.1 = l.1.1 ∨ s.1.1 = l.1.1 + P ∨ s.1.1 = l.1.1 - P) ∧
    (s.2.1 = l.2.1 ∨ s.2.1 = l.2.1 + P ∨ s.2.1 = l.2.1 - P) := by
  simp only [segmentLine] at hs
  by_cases hA : dist2 l.1 l.2 > dist2 (shiftLon l.1 P) l.2
  · rw [if_pos hA] at hs
    simp only [List.mem_cons, List.not_mem_nil, or_false] at hs
    rcases hs with h | h <;> subst h <;>
      refine ⟨rfl, rfl, ?_, ?_⟩ <;> simp [shiftLon] <;> ring_nf <;> tauto
  · rw [if_neg hA] at hs
    by_cases hB : dist2 l.1 l.2 > dist2 l.1 (shiftLon l.2 P)
    · rw [if_pos hB] at hs
      simp only [List.mem_cons, List.not_mem_nil, or_false] at hs
      rcases hs with h | h <;> subst h <;>
        refine ⟨rfl, rfl, ?_, ?_⟩ <;> simp [shiftLon] <;> ring_nf <;> tauto
    · rw [if_neg hB] at hs
      simp only [List.mem_singleton] at hs
      subst hs
      exact ⟨rfl, rfl, Or.inl rfl, Or.inl rfl⟩

/-- Witness for C6: the first output segment of the wrapped edge
`((359, 10), (2, -5))` with `P = 360`. -/
theorem seg_latitudes_preserved_witness :
    (10 : ℚ) = 10 ∧ (-5 : ℚ) = -5 ∧
    ((-1 : ℚ) = 359 ∨ (-1 : ℚ) = 359 + 360 ∨ (-1 : ℚ) = 359 - 360) ∧
    ((2 : ℚ) = 2 ∨ (2 : ℚ) = 2 + 360 ∨ (2 : ℚ) = 2 - 360) :=
  seg_latitudes_preserved 360 ((359, 10), (2, -5)) ((-1, 10), (2, -5))
    (by norm_num [segmentLine, dist2, shiftLon])

/-- Claim C7: the direction arrow of a body runs from its projected
position at time `t` exactly to its projected position at time `t + 7`,
so the motion vector is the componentwise difference
`position(t + 7) - position(t)` with no wrap-correction applied to either
component. -/
theorem motion_vector_componentwise (pos : ℚ → Pt) (t : ℚ) :
    (motion_arrow pos t).1 = pos t ∧ (motion_arrow pos t).2 = pos (t + 7) ∧
    motion_vector pos t =
      ((pos (t + 7)).1 - (pos t).1, (pos (t + 7)).2 - (pos t).2) := by
  refine ⟨by simp [motion_arrow], by simp [motion_arrow], ?_⟩
  simp [motion_vector, motion_arrow]

/-- Claim C8 counterexample: the selector value `"equatorial"` is neither
of the two recognized boolean values, yet the chart build does not fail:
it silently interprets the nonempty string as truthy and proceeds with the
ecliptic period 360.  The source has no InvalidFrame error at all. -/
theorem chart_frame_unrecognized_no_error :
    PyVal.pystr "equatorial" ≠ PyVal.pybool true ∧
    PyVal.pystr "equatorial" ≠ PyVal.pybool false ∧
    chart_frame_period (PyVal.pystr "equatorial") = Except.ok 360 :=
  ⟨fun h => PyVal.noConfusion h, fun h => PyVal.noConfusion h, rfl⟩

/-- Claim C8 as amended: the frame selector `ecliptic_coords` is consumed
only through truth tests, so every selector value — recognized or not —
selects one of the two frames (period 360 when truthy, 24 when falsy) and
the build proceeds with no error. -/
theorem chart_frame_always_ok (sel : PyVal) :
    chart_frame_period sel = Except.ok 360 ∨ chart_frame_period sel = Except.ok 24 := by
  unfold chart_frame_period
  cases h : py_truthy sel <;> simp [h]

/-- Claim C9: for endpoints with longitudes in `[0, P)`, the segmenter
wraps (emits two segments) iff `|lon0 - lon1| > P/2`, and when it wraps
the branch depends only on the sign of `lon0 - lon1`: `lon0 < lon1` gives
the right-shift branch and `lon1 < lon0` the left-shift branch, with the
latitudes playing no role in the decision. -/
theorem wrap_iff_halfperiod (P : ℚ) (p0 p1 : Pt) (hP : 0 < P)
    (h0a : 0 ≤ p0.1) (h0b : p0.1 < P) (h1a : 0 ≤ p1.1) (h1b : p1.1 < P) :
    ((segmentLine P (p0, p1)).length = 2 ↔ P / 2 < |p0.1 - p1.1|) ∧
    (p0.1 < p1.1 → P / 2 < |p0.1 - p1.1| →
      segmentLine P (p0, p1) = [(shiftLon p0 P, p1), (p0, shiftLon p1 (-P))]) ∧
    (p1.1 < p0.1 → P / 2 < |p0.1 - p1.1| →
      segmentLine P (p0, p1) = [(shiftLon p0 (-P), p1), (p0, shiftLon p1 P)]) := by
  have keyA : dist2 p0 p1 > dist2 (shiftLon p0 P) p1 ↔ p0.1 - p1.1 < -(P / 2) := by
    simp only [dist2, shiftLon, gt_iff_lt]
    constructor <;> intro h <;> nlinarith [h, hP]
  have keyB : dist2 p0 p1 > dist2 p0 (shiftLon p1 P) ↔ P / 2 < p0.1 - p1.1 := by
    simp only [dist2, shiftLon, gt_iff_lt]
    constructor <;> intro h <;> nlinarith [h, hP]
  have habs : P / 2 < |p0.1 - p1.1| ↔
      P / 2 < p0.1 - p1.1 ∨ p0.1 - p1.1 < -(P / 2) := by
    rw [lt_abs]
    constructor <;> rintro (h | h)
    · exact Or.inl h
    · exact Or.inr (by linarith)
    · exact Or.inl h
    · exact Or.inr (by linarith)
  refine ⟨?_, ?_, ?_⟩
  · by_cases hA : dist2 p0 p1 > dist2 (shiftLon p0 P) p1
    · have hout : segmentLine P (p0, p1) =
          [(shiftLon p0 P, p1), (p0, shiftLon p1 (-P))] := by
        simp only [segmentLine]; rw [if_pos hA]
      rw [hout]
      simp only [List.length_cons, List.length_singleton]
      exact iff_of_true rfl (habs.2 (Or.inr (keyA.1 hA)))
    · by_cases hB : dist2 p0 p1 > dist2 p0 (shiftLon p1 P)
      · have hout : segmentLine P (p0, p1) =
            [(shiftLon p0 (-P), p1), (p0, shiftLon p1 P)] := by
          simp only [segmentLine]; rw [if_neg hA, if_pos hB]
        rw [hout]
        simp only [List.length_cons, List.length_singleton]
        exact iff_of_true rfl (habs.2 (Or.inl (keyB.1 hB)))
      · have hout : segmentLine P (p0, p1) = [(p0, p1)] := by
          simp only [segmentLine]; rw [if_neg hA, if_neg hB]
        rw [hout]
        simp only [List.length_singleton]
        refine iff_of_false (by norm_num) ?_
        intro hc
        rcases habs.1 hc with h | h
        · exact hB (keyB.2 h)
        · exact hA (keyA.2 h)
  · intro hlt hc
    have hu : p0.1 - p1.1 < -(P / 2) := by
      rcases habs.1 hc with h | h
      · linarith
      · exact h
    simp only [segmentLine]; rw [if_pos (keyA.2 hu)]
  · intro hlt hc
    have hu : P / 2 < p0.1 - p1.1 := by
      rcases habs.1 hc with h | h
      · exact h
      · linarith
    have hA : ¬ dist2 p0 p1 > dist2 (shiftLon p0 P) p1 := by
      rw [keyA]; intro h; linarith
    simp only [segmentLine]; rw [if_neg hA, if_pos (keyB.2 hu)]

/-- Witness for C9 at `P = 360`, `p0 = (0, 0)`, `p1 = (200, 0)`:
`lon0 < lon1` and `|lon0 - lon1| = 200 > 180`, so the right-shift branch
is taken. -/
theorem wrap_iff_halfperiod_witness :
    segmentLine 360 (((0 : ℚ), (0 : ℚ)), ((200 : ℚ), (0 : ℚ))) =
      [(shiftLon (0, 0) 360, (200, 0)), ((0, 0), shiftLon (200, 0) (-360))] :=
  (wrap_iff_halfperiod 360 (0, 0) (200, 0) (by norm_num) (by norm_num) (by norm_num)
    (by norm_num) (by norm_num)).2.1 (by norm_num) (by norm_num)

/-- Claim C10: whenever the segmenter wraps a segment it emits exactly two
output segments, longitude-translates of each other by one full period:
under the right-shift condition the second equals the first translated by
`(-P, 0)`, under the left-shift condition by `(+P, 0)`; `translateSeg`
moves only longitudes, so latitudes agree in both. -/
theorem wrap_emits_translated_pair (P : ℚ) (l : Pt × Pt)
    (h : segmentLine P l ≠ [(l.1, l.2)]) :
    ∃ s1 : Pt × Pt,
      (segmentLine P l = [s1, translateSeg s1 (-P)] ∧
        dist2 l.1 l.2 > dist2 (shiftLon l.1 P) l.2) ∨
      (segmentLine P l = [s1, translateSeg s1 P] ∧
        dist2 l.1 l.2 > dist2 l.1 (shiftLon l.2 P)) := by
  by_cases hA : dist2 l.1 l.2 > dist2 (shiftLon l.1 P) l.2
  · refine ⟨(shiftLon l.1 P, l.2), Or.inl ⟨?_, hA⟩⟩
    simp only [segmentLine]
    rw [if_pos hA]
    simp [translateSeg, shiftLon, Prod.ext_iff]
  · by_cases hB : dist2 l.1 l.2 > dist2 l.1 (shiftLon l.2 P)
    · refine ⟨(shiftLon l.1 (-P), l.2), Or.inr ⟨?_, hB⟩⟩
      simp only [segmentLine]
      rw [if_neg hA, if_pos hB]
      simp [translateSeg, shiftLon, Prod.ext_iff]
    · exfalso
      apply h
      simp only [segmentLine]
      rw [if_neg hA, if_neg hB]

/-- Witness for C10 at `P = 360`, `l = ((2, 0), (359, 0))`, which takes
the right-shift branch. -/
theorem wrap_emits_translated_pair_witness :
    ∃ s1 : Pt × Pt,
      (segmentLine 360 (((2 : ℚ), (0 : ℚ)), ((359 : ℚ), (0 : ℚ))) =
          [s1, translateSeg s1 (-360)] ∧
        dist2 ((2 : ℚ), (0 : ℚ)) ((359 : ℚ), (0 : ℚ)) >
          dist2 (shiftLon (2, 0) 360) ((359 : ℚ), (0 : ℚ))) ∨
      (segmentLine 360 (((2 : ℚ), (0 : ℚ)), ((359 : ℚ), (0 : ℚ))) =
          [s1, translateSeg s1 360] ∧
        dist2 ((2 : ℚ), (0 : ℚ)) ((359 : ℚ), (0 : ℚ)) >
          dist2 ((2 : ℚ), (0 : ℚ)) (shiftLon (359, 0) 360)) :=
  wrap_emits_translated_pair 360 ((2, 0), (359, 0))
    (by norm_num [segmentLine, dist2, shiftLon])
